import Mathlib

/-!
Verification development for the textfile exporter.

The program periodically scans a path for `*.prom` files, decodes each file
into metric families, and feeds the resulting metric points into an in-memory
time-aware collector that a scrape endpoint reads.

The embedding below translates the ingestion loop of `main.go` directly.
The collector itself (`newTimeAwareCollector` with `Clear`, `Add` and the
scrape-time snapshot) is implemented in a file of the same package that is
not part of the provided sources; its state is modelled from the spec as an
identity-keyed map of metric points (see the definitions marked
`Modelled from the spec:`), while every call site and the order of calls
come from `main.go`.

Conventions: wall-clock instants and durations are integers in milliseconds
(the program works with `GetTimestampMs` and converts to nanoseconds only
when storing, an injective unit change); float64 sample values are carried
opaquely (the program never computes with them), modelled as rationals.
-/

namespace TextfileExporter

/-- Sample values (float64 in the source) are only ever copied around, never
computed with, so they are modelled by an arbitrary value type with decidable
equality; we use the rationals. -/
abbrev SampleValue := Rat

/-- The `prometheus.ValueType` values the ingestion loop can select
(line 183 of main.go): gauge, counter or untyped. -/
inductive ValueType
  | GaugeValue
  | CounterValue
  | UntypedValue
deriving DecidableEq

/-- The decoded `dto.MetricType` of a metric family.  `GAUGE_HISTOGRAM`
stands for every value hitting the `default` arm of the switch. -/
inductive MetricType
  | COUNTER
  | GAUGE
  | SUMMARY
  | UNTYPED
  | HISTOGRAM
  | GAUGE_HISTOGRAM
deriving DecidableEq

/-- One decoded `dto.Metric`: its label pairs in input order, the scalar
carried by each of the three readable value fields (proto getters default to
0 when the field is absent), and the optional timestamp in milliseconds
(`GetTimestampMs` returns 0 when the field is absent, modelled by
`Option.getD 0` at the use site). -/
structure Metric where
  label : List (String × String)
  gauge : SampleValue := 0
  counter : SampleValue := 0
  untyped : SampleValue := 0
  timestampMs : Option Int := none
deriving DecidableEq

/-- One decoded `dto.MetricFamily` (the family name is the key of the map
returned by the parser and travels separately, as in
`for name, mf := range mfs`). -/
structure MetricFamily where
  type : MetricType
  help : String := ""
  metric : List Metric
deriving DecidableEq

/-- A Go `map[string]string` update `labels[k] = v`: overwrite the value if
the key is present, otherwise add the pair. -/
def setLabel : List (String × String) → String → String → List (String × String)
  | [], k, v => [(k, v)]
  | (k', v') :: rest, k, v =>
    if k' = k then (k, v) :: rest else (k', v') :: setLabel rest k v

/-- One call of the collector's `Add` method as issued at line 227 of
main.go: metric name, the current contents of the `labels` map, the selected
value type and value, the effective timestamp and the family help text.
(The literal `0` argument of the call configures the collector and carries
no per-point data, so it is not modelled.) -/
structure AddOp where
  name : String
  labels : List (String × String)
  vtype : ValueType
  value : SampleValue
  timestampMs : Int
  help : String
deriving DecidableEq

/-- The switch on `mf.GetType()` (lines 186-202 of main.go): for gauge,
counter and untyped it selects the value type and reads the matching value
field; for summary, histogram and anything else it executes `break out`,
modelled as `none`. -/
def typeToValue : MetricType → Metric → Option (ValueType × SampleValue)
  | .GAUGE, m => some (.GaugeValue, m.gauge)
  | .COUNTER, m => some (.CounterValue, m.counter)
  | .UNTYPED, m => some (.UntypedValue, m.untyped)
  | .SUMMARY, _ => none
  | .HISTOGRAM, _ => none
  | .GAUGE_HISTOGRAM, _ => none

/-- Lines 205-215 of main.go: `timestamp := m.GetTimestampMs()` (0 when the
field is absent) and `if timestamp <= 0 { timestamp = now }`. -/
def effectiveTimestampMs (nowMs : Int) (ts : Option Int) : Int :=
  let t := ts.getD 0
  if t ≤ 0 then nowMs else t

/-- The labelled loop `out: for _, m := range mf.GetMetric()` (lines
184-233 of main.go).  The `labels` argument is the family-wide
`map[string]string` created once per family at line 175: each metric's label
pairs are written into it and the map is NOT reset between metrics, so it is
threaded through the recursion.  `break out` (unsupported type) ends the
whole loop. -/
def ingestMetrics (nowMs : Int) (name help : String) (mtype : MetricType) :
    List Metric → List (String × String) → List AddOp
  | [], _ => []
  | m :: rest, labels =>
    match typeToValue mtype m with
    | none => []
    | some (vt, v) =>
      let labels1 := m.label.foldl (fun acc p => setLabel acc p.1 p.2) labels
      { name := name, labels := labels1, vtype := vt, value := v,
        timestampMs := effectiveTimestampMs nowMs m.timestampMs,
        help := help } :: ingestMetrics nowMs name help mtype rest labels1

/-- Lines 174-234 of main.go: handling of one parsed metric family, with the
`labels` map freshly created for the family. -/
def ingestFamily (nowMs : Int) (name : String) (mf : MetricFamily) : List AddOp :=
  ingestMetrics nowMs name mf.help mf.type mf.metric []

/-- Handling of the whole `mfs` parse result of one file, one family after
the other. -/
def ingestFamilies (nowMs : Int) : List (String × MetricFamily) → List AddOp
  | [] => []
  | (nm, mf) :: rest => ingestFamily nowMs nm mf ++ ingestFamilies nowMs rest

/-- The scanner's view of one file of a pass: its path, whether the per-file
`os.Stat` at line 147 succeeds, its modification time, and the parse result
(`none` when `parseMF` returns an error). -/
structure FileInput where
  path : String
  statOk : Bool := true
  modTimeMs : Int := 0
  parse : Option (List (String × MetricFamily)) := none
deriving DecidableEq

/-- The left-brace character of the command template's placeholder. -/
def lbrace : Char := Char.ofNat 123

/-- The right-brace character of the command template's placeholder. -/
def rbrace : Char := Char.ofNat 125

/-- Go's `strings.ReplaceAll` instantiated at the program's fixed
placeholder pattern (a left brace immediately followed by a right brace, as
in `strings.ReplaceAll(optOldFilesExternalCmd, placeholder, f)` at line 155
of main.go): every non-overlapping occurrence of the two-character pattern,
scanned left to right, is replaced by `rep`. -/
def substBraceChars (rep : List Char) : List Char → List Char
  | [] => []
  | [c] => [c]
  | c1 :: c2 :: rest =>
    if c1 = lbrace ∧ c2 = rbrace then rep ++ substBraceChars rep rest
    else c1 :: substBraceChars rep (c2 :: rest)

/-- The placeholder substitution on strings: the command to run for a stale
file is the template with every placeholder replaced by the file path. -/
def substBraces (tmpl rep : String) : String :=
  String.mk (substBraceChars rep.data tmpl.data)

/-- Lines 141-238 of main.go, the body of the per-file loop: a stat error
skips the file; a file strictly older than the configured age
(`time.Now().After(ModTime().Add(optOldFilesAge))`) is skipped after running
the external command template with `{}` replaced by the file path; a parse
error skips the file; otherwise the parsed families are ingested.  The
result is the list of collector `Add` calls and the list of external
commands executed for this file. -/
def processFile (nowMs oldAgeMs : Int) (tmpl : String) (f : FileInput) :
    List AddOp × List String :=
  if f.statOk = false then ([], [])
  else if oldAgeMs < nowMs - f.modTimeMs then
    ([], [substBraces tmpl f.path])
  else
    match f.parse with
    | none => ([], [])
    | some mfs => (ingestFamilies nowMs mfs, [])

/-- The whole per-file loop over the collected file list, concatenating each
file's `Add` calls and external commands in order. -/
def processFiles (nowMs oldAgeMs : Int) (tmpl : String) :
    List FileInput → List AddOp × List String
  | [] => ([], [])
  | f :: rest =>
    let r := processFile nowMs oldAgeMs tmpl f
    let rs := processFiles nowMs oldAgeMs tmpl rest
    (r.1 ++ rs.1, r.2 ++ rs.2)

/-- The environment one iteration of the forever loop (lines 83-241 of
main.go) finds: whether `os.Stat(optPromPath)` fails, whether the path is a
directory, whether `os.ReadDir` fails for it, the wall clock of the pass,
and the assembled file list (for a directory, its regular `*.prom` entries;
for a plain file, the path itself). -/
structure ScanEnv where
  statErr : Bool := false
  isDir : Bool := true
  readDirErr : Bool := false
  nowMs : Int := 0
  files : List FileInput := []
deriving DecidableEq

/-- The forever loop of the background goroutine (lines 83-241 of main.go)
over the successive environments it encounters, returning each completed
pass's `Add` calls and external commands.  A failing `os.Stat` (line 87) or
a failing `os.ReadDir` (line 113) executes `break`, which leaves the loop:
no further environment is ever scanned. -/
def runScanLoop (oldAgeMs : Int) (tmpl : String) :
    List ScanEnv → List (List AddOp × List String)
  | [] => []
  | e :: rest =>
    if e.statErr then []
    else if e.isDir && e.readDirErr then []
    else processFiles e.nowMs oldAgeMs tmpl e.files :: runScanLoop oldAgeMs tmpl rest

/-! ## The collector, modelled from the spec

`newTimeAwareCollector`, `Clear`, `Add` and the scrape-time snapshot live in
a package file outside the provided sources.  The spec describes the store
as a mapping keyed by metric identity (name plus sorted label pairs) to the
latest metric point, mutated in place by the ingestion loop (`Clear`, then
one `Add` per point) while the scrape path reads it, with age-based
visibility `now - timestamp ≤ maxAge` applied at read time. -/

/-- Modelled from the spec: metric identity, the unique key for a series —
name plus sorted label-name/value pairs (glossary and §3 of the spec; the
collector implementation is not under the provided sources). -/
structure Identity where
  name : String
  labels : List (String × String)
deriving DecidableEq

/-- Modelled from the spec: one stored metric point (§3: identity, kind,
value, timestamp, help). -/
structure Point where
  labels : List (String × String)
  vtype : ValueType
  value : SampleValue
  timestampMs : Int
  help : String
deriving DecidableEq

/-- Insertion into a key-sorted pair list, used to canonicalise a label set
for identity comparison. -/
def insertPair (p : String × String) : List (String × String) → List (String × String)
  | [] => [p]
  | q :: rest => if p.1 < q.1 then p :: q :: rest else q :: insertPair p rest

/-- Sorts label pairs by label name, the canonical order the spec's
identity uses. -/
def sortPairs (l : List (String × String)) : List (String × String) :=
  l.foldr insertPair []

/-- Modelled from the spec: the collector's store, a mapping from metric
identity to the latest point; represented as a list of key-point pairs
whose keys are kept unique by `putStore`. -/
abbrev Store := List (Identity × Point)

/-- Modelled from the spec (§4.1): keyed insert/overwrite — the write for an
identity replaces any previous point with that identity and otherwise
appends. -/
def putStore : Store → Identity → Point → Store
  | [], id, pt => [(id, pt)]
  | (id', pt') :: rest, id, pt =>
    if id' = id then (id, pt) :: rest else (id', pt') :: putStore rest id pt

/-- Keyed lookup in the store. -/
def lookupStore : Store → Identity → Option Point
  | [], _ => none
  | (id', pt') :: rest, id => if id' = id then some pt' else lookupStore rest id

/-- The identity under which one `Add` call is keyed. -/
def AddOp.identity (op : AddOp) : Identity :=
  ⟨op.name, sortPairs op.labels⟩

/-- The point one `Add` call stores. -/
def AddOp.point (op : AddOp) : Point :=
  ⟨op.labels, op.vtype, op.value, op.timestampMs, op.help⟩

/-- Modelled from the spec: the collector's `Add`, storing the call's point
under its identity. -/
def addToStore (s : Store) (op : AddOp) : Store :=
  putStore s op.identity op.point

/-- A sequence of `Add` calls applied in order. -/
def applyAdds (s : Store) (ops : List AddOp) : Store :=
  ops.foldl addToStore s

/-- Modelled from the spec (§3): the scrape-time snapshot — every stored
point whose age at read time is within `maxAge` (`now - timestamp ≤ maxAge`,
checked at read time only). -/
def snapshot (s : Store) (nowMs maxAgeMs : Int) : List (Identity × Point) :=
  s.filter (fun e => decide (nowMs - e.2.timestampMs ≤ maxAgeMs))

/-- The store keys currently present. -/
def storeKeys (s : Store) : List Identity :=
  s.map Prod.fst

/-! ## Interleaving model of one ingestion pass

The ingestion loop issues `collector.Clear()` (line 138 of main.go) and then
one `collector.Add(...)` per decoded point (line 227).  A scrape may run
between any two of these mutations; the observable states are therefore the
store contents after each prefix of the operation sequence. -/

/-- One collector mutation the ingestion loop can issue. -/
inductive CollectorOp
  | clear
  | add (op : AddOp)
deriving DecidableEq

/-- Modelled from the spec (§9, the original design's in-place mutation):
`Clear` empties the shared map, `Add` writes one point into it. -/
def applyOp (s : Store) : CollectorOp → Store
  | .clear => []
  | .add op => addToStore s op

/-- A sequence of collector mutations applied in order. -/
def applyOps (s : Store) (ops : List CollectorOp) : Store :=
  ops.foldl applyOp s

/-- The mutation sequence of one ingestion pass as main.go issues it:
`Clear`, then the pass's `Add` calls (lines 138 and 227). -/
def passCollectorOps (adds : List AddOp) : List CollectorOp :=
  .clear :: adds.map .add

/-- All store states a concurrent scrape can observe while a sequence of
mutations runs: the state before any mutation and the state after each
one. -/
def statesDuring (s : Store) : List CollectorOp → List Store
  | [] => [s]
  | op :: rest => s :: statesDuring (applyOp s op) rest

/-! ## Store lemmas -/

lemma mem_keys_putStore {s : Store} {id x : Identity} {pt : Point}
    (h : x ∈ storeKeys (putStore s id pt)) : x ∈ storeKeys s ∨ x = id := by
  induction s with
  | nil =>
    simp [putStore, storeKeys] at h
    exact Or.inr h
  | cons e rest ih =>
    rw [putStore] at h
    by_cases he : e.1 = id
    · rw [if_pos he] at h
      rcases List.mem_cons.1 h with h1 | h1
      · exact Or.inr h1
      · exact Or.inl (List.mem_cons.2 (Or.inr h1))
    · rw [if_neg he] at h
      rcases List.mem_cons.1 h with h1 | h1
      · exact Or.inl (List.mem_cons.2 (Or.inl h1))
      · rcases ih h1 with h2 | h2
        · exact Or.inl (List.mem_cons.2 (Or.inr h2))
        · exact Or.inr h2

lemma nodup_keys_putStore {s : Store} {id : Identity} {pt : Point}
    (h : (storeKeys s).Nodup) : (storeKeys (putStore s id pt)).Nodup := by
  induction s with
  | nil => simp [putStore, storeKeys]
  | cons e rest ih =>
    rw [storeKeys, List.map_cons, List.nodup_cons] at h
    rw [putStore]
    by_cases he : e.1 = id
    · rw [if_pos he]
      rw [storeKeys, List.map_cons, List.nodup_cons]
      exact ⟨he ▸ h.1, h.2⟩
    · rw [if_neg he]
      rw [storeKeys, List.map_cons, List.nodup_cons]
      refine ⟨fun hmem => ?_, ih h.2⟩
      rcases mem_keys_putStore hmem with h1 | h1
      · exact h.1 h1
      · exact he h1

lemma lookup_putStore_self {s : Store} {id : Identity} {pt : Point} :
    lookupStore (putStore s id pt) id = some pt := by
  induction s with
  | nil => simp [putStore, lookupStore]
  | cons e rest ih =>
    rw [putStore]
    by_cases he : e.1 = id
    · rw [if_pos he, lookupStore, if_pos rfl]
    · rw [if_neg he, lookupStore, if_neg he]
      exact ih

lemma self_mem_putStore {s : Store} {id : Identity} {pt : Point} :
    (id, pt) ∈ putStore s id pt := by
  induction s with
  | nil => simp [putStore]
  | cons e rest ih =>
    rw [putStore]
    by_cases he : e.1 = id
    · rw [if_pos he]; exact List.mem_cons_self _ _
    · rw [if_neg he]; exact List.mem_cons.2 (Or.inr ih)

lemma lookup_of_mem_nodup {s : Store} {id : Identity} {pt : Point}
    (h : (storeKeys s).Nodup) (hm : (id, pt) ∈ s) : lookupStore s id = some pt := by
  induction s with
  | nil => simp at hm
  | cons e rest ih =>
    rw [storeKeys, List.map_cons, List.nodup_cons] at h
    rcases List.mem_cons.1 hm with h1 | h1
    · rw [← h1, lookupStore, if_pos rfl]
    · rw [lookupStore]
      by_cases he : e.1 = id
      · exact absurd (he ▸ List.mem_map_of_mem Prod.fst h1) h.1
      · rw [if_neg he]
        exact ih h.2 h1

lemma mem_snapshot {s : Store} {e : Identity × Point} {nowMs maxAgeMs : Int} :
    e ∈ snapshot s nowMs maxAgeMs ↔ e ∈ s ∧ nowMs - e.2.timestampMs ≤ maxAgeMs := by
  simp [snapshot, List.mem_filter]

/-! ## Claim C7 -/

/-- Claim C7: the store holds at most one live point per identity (unique
keys are preserved by every `Add`); when two points with the same identity
are added, the later one overwrites the earlier, and any snapshot taken
afterwards shows only the latest point for that identity, never
duplicates. -/
theorem store_identity_dedup (s : Store) (id : Identity) (pt1 pt2 : Point)
    (nowMs maxAgeMs : Int) (h : (storeKeys s).Nodup) :
    (storeKeys (putStore (putStore s id pt1) id pt2)).Nodup
    ∧ lookupStore (putStore (putStore s id pt1) id pt2) id = some pt2
    ∧ ∀ q, (id, q) ∈ snapshot (putStore (putStore s id pt1) id pt2) nowMs maxAgeMs →
        q = pt2 := by
  have hn : (storeKeys (putStore (putStore s id pt1) id pt2)).Nodup :=
    nodup_keys_putStore (nodup_keys_putStore h)
  refine ⟨hn, lookup_putStore_self, fun q hq => ?_⟩
  have hmem : (id, q) ∈ putStore (putStore s id pt1) id pt2 := (mem_snapshot.1 hq).1
  have h1 := lookup_of_mem_nodup hn hmem
  rw [lookup_putStore_self] at h1
  exact (Option.some.injEq _ _ ▸ h1).symm

/-- The dedup theorem instantiated on a concrete store: two adds of identity
`x` with values 1 then 2, snapshot at time 10 with max age 100. -/
theorem store_identity_dedup_witness :
    (storeKeys ([] : Store)).Nodup
    ∧ lookupStore
        (putStore (putStore [] ⟨"x", []⟩ ⟨[], .GaugeValue, 1, 0, ""⟩)
          ⟨"x", []⟩ ⟨[], .GaugeValue, 2, 0, ""⟩) ⟨"x", []⟩
        = some ⟨[], .GaugeValue, 2, 0, ""⟩ :=
  ⟨by decide,
   (store_identity_dedup [] ⟨"x", []⟩ ⟨[], .GaugeValue, 1, 0, ""⟩
     ⟨[], .GaugeValue, 2, 0, ""⟩ 10 100 (by decide)).2.1⟩

/-! ## Claim C8 -/

/-- Claim C8: a stored point is in a snapshot taken at `now` with maximum
age `maxAge` exactly when `now - timestamp ≤ maxAge`; the filter runs at
read time against the stored timestamp (an `Add` stores the point
unconditionally, with no age check), so the same untouched store includes a
point at one read time and excludes it at a later one, with no intervening
write. -/
theorem snapshot_age_filter_read_time (s : Store) (e : Identity × Point)
    (id : Identity) (pt : Point) (now1 now2 maxAge : Int)
    (h1 : now1 - pt.timestampMs ≤ maxAge) (h2 : maxAge < now2 - pt.timestampMs) :
    (e ∈ snapshot s now1 maxAge ↔ e ∈ s ∧ now1 - e.2.timestampMs ≤ maxAge)
    ∧ lookupStore (putStore s id pt) id = some pt
    ∧ (id, pt) ∈ snapshot (putStore s id pt) now1 maxAge
    ∧ (id, pt) ∉ snapshot (putStore s id pt) now2 maxAge := by
  refine ⟨mem_snapshot, lookup_putStore_self,
    mem_snapshot.2 ⟨self_mem_putStore, h1⟩, fun hm => ?_⟩
  have h3 : now2 - pt.timestampMs ≤ maxAge := (mem_snapshot.1 hm).2
  omega

/-- The age-filter theorem instantiated concretely: a point with timestamp
0 under max age 5 is visible at time 3 and no longer visible at time 10,
with no write in between. -/
theorem snapshot_age_filter_read_time_witness :
    (3 : Int) - 0 ≤ 5 ∧ (5 : Int) < 10 - 0
    ∧ (⟨"m", []⟩, ⟨[], .GaugeValue, 1, 0, ""⟩) ∈
        snapshot (putStore [] ⟨"m", []⟩ ⟨[], .GaugeValue, 1, 0, ""⟩) 3 5
    ∧ (⟨"m", []⟩, ⟨[], .GaugeValue, 1, 0, ""⟩) ∉
        snapshot (putStore [] ⟨"m", []⟩ ⟨[], .GaugeValue, 1, 0, ""⟩) 10 5 :=
  ⟨by decide, by decide,
   (snapshot_age_filter_read_time [] (⟨"m", []⟩, ⟨[], .GaugeValue, 1, 0, ""⟩)
     ⟨"m", []⟩ ⟨[], .GaugeValue, 1, 0, ""⟩ 3 10 5 (by decide) (by decide)).2.2.1,
   (snapshot_age_filter_read_time [] (⟨"m", []⟩, ⟨[], .GaugeValue, 1, 0, ""⟩)
     ⟨"m", []⟩ ⟨[], .GaugeValue, 1, 0, ""⟩ 3 10 5 (by decide) (by decide)).2.2.2⟩

/-! ## Claim C1 -/

/-- The previous pass of the spec's concrete scenario: one gauge point
`x = 1`. -/
def addX1 : AddOp := ⟨"x", [], .GaugeValue, 1, 0, "h"⟩

/-- The new pass's first point, `x = 2`, replacing the identity of
`addX1`. -/
def addX2 : AddOp := ⟨"x", [], .GaugeValue, 2, 0, "h"⟩

/-- The new pass's second point, `y = 5`. -/
def addY5 : AddOp := ⟨"y", [], .CounterValue, 5, 0, "h"⟩

/-- Claim C1 is false of the code: main.go empties the collector (line 138)
and then adds the new pass's points one by one (line 227), so a scrape
between the two adds of the new pass observes a store that holds neither
the entire previous generation `{x = 1}` nor the entire new generation
`{x = 2, y = 5}` — here it sees only `{x = 2}`, a partially populated new
generation. -/
theorem snapshot_mid_pass_partial :
    applyOps (applyAdds [] [addX1]) [CollectorOp.clear, .add addX2]
      ∈ statesDuring (applyAdds [] [addX1]) (passCollectorOps [addX2, addY5])
    ∧ snapshot (applyOps (applyAdds [] [addX1]) [CollectorOp.clear, .add addX2]) 0 100
        ≠ snapshot (applyAdds [] [addX1]) 0 100
    ∧ snapshot (applyOps (applyAdds [] [addX1]) [CollectorOp.clear, .add addX2]) 0 100
        ≠ snapshot (applyOps (applyAdds [] [addX1]) (passCollectorOps [addX2, addY5])) 0 100 := by
  refine ⟨?_, ?_, ?_⟩ <;> decide

lemma statesDuring_map_add {adds : List AddOp} {s st : Store}
    (h : st ∈ statesDuring s (adds.map .add)) :
    ∃ k, st = applyAdds s (adds.take k) := by
  induction adds generalizing s with
  | nil =>
    simp [statesDuring] at h
    exact ⟨0, by simp [applyAdds, h]⟩
  | cons a as ih =>
    rw [List.map_cons, statesDuring] at h
    rcases List.mem_cons.1 h with h1 | h1
    · exact ⟨0, by simp [applyAdds, h1]⟩
    · rcases ih h1 with ⟨k, hk⟩
      exact ⟨k + 1, by simpa [applyAdds, applyOp] using hk⟩

/-- Claim C1 amended: every store state a scrape can observe while an
ingestion pass runs is either the entire previous generation (before the
`Clear`) or the result of some prefix of the new pass's `Add` calls applied
to the emptied store — so old-generation points are never mixed with
new-generation ones, but a partially populated (possibly empty) new
generation is observable. -/
theorem clear_then_add_states_no_mix (old : Store) (adds : List AddOp) (st : Store)
    (h : st ∈ statesDuring old (passCollectorOps adds)) :
    st = old ∨ ∃ k, st = applyAdds [] (adds.take k) := by
  rw [passCollectorOps, statesDuring] at h
  rcases List.mem_cons.1 h with h1 | h1
  · exact Or.inl h1
  · exact Or.inr (statesDuring_map_add h1)

/-- The no-mix theorem instantiated on a one-add pass over an empty previous
generation. -/
theorem clear_then_add_states_no_mix_witness :
    [(⟨"w", []⟩, ⟨[], ValueType.GaugeValue, 3, 7, "h"⟩)]
      ∈ statesDuring [] (passCollectorOps [⟨"w", [], .GaugeValue, 3, 7, "h"⟩])
    ∧ ([(⟨"w", []⟩, ⟨[], ValueType.GaugeValue, 3, 7, "h"⟩)] = ([] : Store)
        ∨ ∃ k, [(⟨"w", []⟩, ⟨[], ValueType.GaugeValue, 3, 7, "h"⟩)]
            = applyAdds [] (List.take k [⟨"w", [], .GaugeValue, 3, 7, "h"⟩])) :=
  ⟨by decide,
   clear_then_add_states_no_mix [] [⟨"w", [], .GaugeValue, 3, 7, "h"⟩] _ (by decide)⟩

/-! ## Claim C5 -/

lemma typeToValue_none_of_unsupported (t : MetricType) (m : Metric)
    (h1 : t ≠ .GAUGE) (h2 : t ≠ .COUNTER) (h3 : t ≠ .UNTYPED) :
    typeToValue t m = none := by
  cases t <;> simp_all [typeToValue]

/-- Claim C5: a metric family whose type is Summary, Histogram or anything
else outside gauge/counter/untyped produces no `Add` call at all (the
switch executes `break out` on its first metric), so ingesting it leaves
the collector unchanged and none of its points can appear in any
snapshot. -/
theorem unsupported_kind_family_ingests_nothing (nowMs : Int) (name : String)
    (mf : MetricFamily) (s : Store)
    (h1 : mf.type ≠ .GAUGE) (h2 : mf.type ≠ .COUNTER) (h3 : mf.type ≠ .UNTYPED) :
    ingestFamily nowMs name mf = [] ∧ applyAdds s (ingestFamily nowMs name mf) = s := by
  have he : ingestFamily nowMs name mf = [] := by
    rw [ingestFamily]
    cases hm : mf.metric with
    | nil => rfl
    | cons m rest =>
      simp [ingestMetrics, typeToValue_none_of_unsupported mf.type m h1 h2 h3]
  exact ⟨he, by rw [he]; rfl⟩

/-- The kind-filtering theorem instantiated on a summary family with one
metric. -/
theorem unsupported_kind_family_ingests_nothing_witness :
    (MetricType.SUMMARY ≠ .GAUGE ∧ MetricType.SUMMARY ≠ .COUNTER
      ∧ MetricType.SUMMARY ≠ .UNTYPED)
    ∧ ingestFamily 5 "s" ⟨.SUMMARY, "h", [⟨[("q", "0.5")], 1, 0, 0, none⟩]⟩ = [] :=
  ⟨by decide,
   (unsupported_kind_family_ingests_nothing 5 "s"
     ⟨.SUMMARY, "h", [⟨[("q", "0.5")], 1, 0, 0, none⟩]⟩ []
     (by decide) (by decide) (by decide)).1⟩

/-! ## Claim C10 -/

/-- Claim C10: a decoded metric whose explicit timestamp is non-positive
(the epoch instant included, which the proto getter cannot distinguish from
an absent field) has that timestamp discarded and replaced by the pass's
current wall-clock time, exactly as if it were absent. -/
theorem nonpositive_timestamp_replaced_by_now (nowMs : Int) (name help : String)
    (mtype : MetricType) (m : Metric) (rest : List Metric)
    (labels : List (String × String)) (vt : ValueType) (v : SampleValue) (t : Int)
    (hv : typeToValue mtype m = some (vt, v))
    (ht : m.timestampMs = some t) (hle : t ≤ 0) :
    ((ingestMetrics nowMs name help mtype (m :: rest) labels).head?).map
        (fun o => o.timestampMs) = some nowMs := by
  simp [ingestMetrics, hv, effectiveTimestampMs, ht, hle]

/-- The non-positive-timestamp theorem instantiated on a gauge metric
carrying the epoch timestamp 0, ingested at wall clock 777. -/
theorem nonpositive_timestamp_replaced_by_now_witness :
    typeToValue .GAUGE ⟨[], 7, 0, 0, some 0⟩ = some (.GaugeValue, 7)
    ∧ ((ingestMetrics 777 "x" "" .GAUGE [⟨[], 7, 0, 0, some 0⟩] []).head?).map
        (fun o => o.timestampMs) = some 777 :=
  ⟨by decide,
   nonpositive_timestamp_replaced_by_now 777 "x" "" .GAUGE ⟨[], 7, 0, 0, some 0⟩
     [] [] .GaugeValue 7 0 rfl rfl (by decide)⟩

/-! ## Claim C4 -/

/-- A gauge family with one metric that carries the explicit timestamp
-5 ms. -/
def famNegTs : MetricFamily :=
  { type := .GAUGE, help := "", metric := [{ label := [], gauge := 7, timestampMs := some (-5) }] }

/-- Claim C4 is false of the code as stated: this decoded metric carries
the explicit timestamp -5, yet the point added to the store carries the
pass's wall-clock time 1000 — a carried non-positive timestamp is not
kept. -/
theorem nonpositive_carried_timestamp_not_kept :
    (famNegTs.metric.map (fun m => m.timestampMs)) = [some (-5)]
    ∧ (ingestFamily 1000 "x" famNegTs).map (fun o => o.timestampMs) = [1000]
    ∧ (-5 : Int) ∉ (ingestFamily 1000 "x" famNegTs).map (fun o => o.timestampMs) := by
  refine ⟨?_, ?_, ?_⟩ <;> decide

/-- Claim C4 amended: a decoded metric with no timestamp receives the
ingestion pass's wall-clock time, and a decoded metric carrying a POSITIVE
timestamp keeps it (a non-positive carried timestamp is replaced by the
wall clock as well, see the C10 theorem). -/
theorem timestamp_defaulting_amended (nowMs : Int) (name help : String)
    (mtype : MetricType) (m : Metric) (rest : List Metric)
    (labels : List (String × String)) (vt : ValueType) (v : SampleValue)
    (hv : typeToValue mtype m = some (vt, v)) :
    ((ingestMetrics nowMs name help mtype (m :: rest) labels).head?).map
        (fun o => o.timestampMs) = some (effectiveTimestampMs nowMs m.timestampMs)
    ∧ (m.timestampMs = none → effectiveTimestampMs nowMs m.timestampMs = nowMs)
    ∧ (∀ t, m.timestampMs = some t → 0 < t →
        effectiveTimestampMs nowMs m.timestampMs = t) := by
  refine ⟨by simp [ingestMetrics, hv], fun h => by simp [effectiveTimestampMs, h],
    fun t h hpos => ?_⟩
  rw [effectiveTimestampMs, h]
  simp only [Option.getD_some]
  rw [if_neg (by omega)]

/-- The amended timestamp theorem instantiated twice: an absent timestamp
becomes the wall clock 500, and a carried positive timestamp 42 is kept. -/
theorem timestamp_defaulting_amended_witness :
    typeToValue .GAUGE ⟨[], 7, 0, 0, none⟩ = some (.GaugeValue, 7)
    ∧ effectiveTimestampMs 500 none = 500
    ∧ effectiveTimestampMs 500 (some 42) = 42 :=
  ⟨rfl,
   (timestamp_defaulting_amended 500 "x" "" .GAUGE ⟨[], 7, 0, 0, none⟩ [] []
     .GaugeValue 7 rfl).2.1 rfl,
   (timestamp_defaulting_amended 500 "x" "" .GAUGE ⟨[], 7, 0, 0, some 42⟩ [] []
     .GaugeValue 7 rfl).2.2 42 rfl (by decide)⟩

/-! ## Claim C3 -/

/-- A gauge family with two metrics carrying disjoint label sets: the first
metric has the single label `a=1`, the second the single label `b=2`. -/
def famLeak : MetricFamily :=
  { type := .GAUGE, help := "",
    metric := [{ label := [("a", "1")], gauge := 1 },
               { label := [("b", "2")], gauge := 2 }] }

/-- Claim C3 is false of the code: the `labels` map is created once per
metric family (line 175 of main.go) and never reset between the metrics of
that family, so label pairs accumulate across metrics.  For `famLeak`, the
point stored for the second metric carries the labels `a=1, b=2`, although
that metric itself carries only `b=2` — the pair `a=1` originated from a
different metric of the same family.  (The spec's per-metric label capture
is clearly the intent; the hoisted map is a slip in the code.) -/
theorem family_label_map_leaks_across_metrics :
    (famLeak.metric.map (fun m => m.label)) = [[("a", "1")], [("b", "2")]]
    ∧ (ingestFamily 1000 "f" famLeak).map (fun o => o.labels)
        = [[("a", "1")], [("a", "1"), ("b", "2")]]
    ∧ (ingestFamily 1000 "f" famLeak).map (fun o => o.labels)
        ≠ famLeak.metric.map (fun m => m.label) := by
  refine ⟨?_, ?_, ?_⟩ <;> decide

/-! ## Claim C6 -/

lemma processFiles_append (nowMs oldAgeMs : Int) (tmpl : String)
    (l1 l2 : List FileInput) :
    processFiles nowMs oldAgeMs tmpl (l1 ++ l2)
      = ((processFiles nowMs oldAgeMs tmpl l1).1
            ++ (processFiles nowMs oldAgeMs tmpl l2).1,
         (processFiles nowMs oldAgeMs tmpl l1).2
            ++ (processFiles nowMs oldAgeMs tmpl l2).2) := by
  induction l1 with
  | nil => simp [processFiles]
  | cons f rest ih => simp [processFiles, ih]

/-- Claim C6: a file whose modification time is strictly older than the
stale-age threshold at scan time contributes no `Add` call to the pass and
causes exactly one execution of the external command, namely the template
with the placeholder replaced by the file's path; the rest of the pass is
unaffected. -/
theorem stale_file_zero_points_one_command (nowMs oldAgeMs : Int) (tmpl : String)
    (f : FileInput) (pre post : List FileInput)
    (hs : f.statOk = true) (hold : oldAgeMs < nowMs - f.modTimeMs) :
    processFile nowMs oldAgeMs tmpl f = ([], [substBraces tmpl f.path])
    ∧ (processFiles nowMs oldAgeMs tmpl (pre ++ f :: post)).1
        = (processFiles nowMs oldAgeMs tmpl pre).1
          ++ (processFiles nowMs oldAgeMs tmpl post).1
    ∧ (processFiles nowMs oldAgeMs tmpl (pre ++ f :: post)).2
        = (processFiles nowMs oldAgeMs tmpl pre).2
          ++ substBraces tmpl f.path :: (processFiles nowMs oldAgeMs tmpl post).2 := by
  have hf : processFile nowMs oldAgeMs tmpl f = ([], [substBraces tmpl f.path]) := by
    rw [processFile, if_neg (by simp [hs]), if_pos hold]
  refine ⟨hf, ?_, ?_⟩ <;>
    rw [processFiles_append] <;> simp [processFiles, hf]

/-- The stale-file theorem instantiated concretely: at wall clock 100 with
threshold 10, a file last modified at 0 is stale and yields no point and
the single substituted command. -/
theorem stale_file_zero_points_one_command_witness :
    ({ path := "/a.prom", statOk := true, modTimeMs := 0 } : FileInput).statOk = true
    ∧ (10 : Int) < 100 - 0
    ∧ processFile 100 10 "ls -l \x7b\x7d" { path := "/a.prom", statOk := true, modTimeMs := 0 }
        = ([], ["ls -l /a.prom"]) := by
  refine ⟨rfl, by decide, ?_⟩
  have h := (stale_file_zero_points_one_command 100 10 "ls -l \x7b\x7d"
    { path := "/a.prom", statOk := true, modTimeMs := 0 } [] [] rfl (by decide)).1
  rw [h]
  decide

/-! ## Claim C9 -/

/-- Claim C9: a file that stats fine and is not stale but fails to parse is
skipped and only it: it contributes no `Add` call and no command, the pass's
result over the whole file list is exactly the result over the list with the
failing file removed, so earlier files' points are kept (no rollback) and
later files are still processed. -/
theorem decode_failure_skips_only_that_file (nowMs oldAgeMs : Int) (tmpl : String)
    (f : FileInput) (pre post : List FileInput)
    (hs : f.statOk = true) (hfresh : ¬ oldAgeMs < nowMs - f.modTimeMs)
    (hp : f.parse = none) :
    processFile nowMs oldAgeMs tmpl f = ([], [])
    ∧ processFiles nowMs oldAgeMs tmpl (pre ++ f :: post)
        = processFiles nowMs oldAgeMs tmpl (pre ++ post) := by
  have hf : processFile nowMs oldAgeMs tmpl f = ([], []) := by
    rw [processFile, if_neg (by simp [hs]), if_neg hfresh, hp]
  refine ⟨hf, ?_⟩
  rw [processFiles_append, processFiles_append]
  simp [processFiles, hf]

/-- The decode-failure theorem instantiated concretely: a fresh file whose
parse fails, between two other files, leaves the pass equal to the pass
without it. -/
theorem decode_failure_skips_only_that_file_witness :
    ({ path := "/bad.prom", statOk := true, modTimeMs := 95 } : FileInput).parse = none
    ∧ processFiles 100 10 "x"
        [{ path := "/bad.prom", statOk := true, modTimeMs := 95 }] = ([], []) := by
  refine ⟨rfl, ?_⟩
  have h := (decode_failure_skips_only_that_file 100 10 "x"
    { path := "/bad.prom", statOk := true, modTimeMs := 95 } [] [] rfl (by decide) rfl).2
  simpa [processFiles] using h

/-! ## Claim C2 -/

/-- Claim C2 is false of the code: when `os.Stat` on the configured path
fails, the scanning loop executes `break` (line 87 of main.go) rather than
retrying, so a later interval with a healthy environment is never scanned:
with a failing first environment the loop produces no pass at all, while
the same healthy environment alone would produce one. -/
theorem scan_loop_stops_after_stat_error :
    runScanLoop 10 "x"
      [{ statErr := true },
       { nowMs := 100,
         files := [{ path := "/b.prom", statOk := true, modTimeMs := 95,
                     parse := some [("f", famLeak)] }] }] = []
    ∧ runScanLoop 10 "x"
        [{ nowMs := 100,
           files := [{ path := "/b.prom", statOk := true, modTimeMs := 95,
                       parse := some [("f", famLeak)] }] }] ≠ [] := by
  refine ⟨?_, ?_⟩ <;> decide

/-- Claim C2 amended: a failing `os.Stat` of the configured path, or a
failing `os.ReadDir` when it is a directory, aborts the current pass before
any file is processed AND permanently ends the scanning loop — no later
interval is ever scanned (the process itself keeps serving; only the
scanning goroutine returns). -/
theorem scan_error_aborts_loop_permanently (oldAgeMs : Int) (tmpl : String)
    (e : ScanEnv) (rest : List ScanEnv)
    (h : e.statErr = true ∨ (e.isDir = true ∧ e.readDirErr = true)) :
    runScanLoop oldAgeMs tmpl (e :: rest) = [] := by
  rcases h with h | ⟨h1, h2⟩
  · rw [runScanLoop, if_pos h]
  · rw [runScanLoop]
    by_cases hs : e.statErr
    · rw [if_pos hs]
    · rw [if_neg hs, if_pos (by simp [h1, h2])]

/-- The loop-abort theorem instantiated on a stat failure followed by a
healthy environment. -/
theorem scan_error_aborts_loop_permanently_witness :
    (({ statErr := true } : ScanEnv).statErr = true
      ∨ (({ statErr := true } : ScanEnv).isDir = true
          ∧ ({ statErr := true } : ScanEnv).readDirErr = true))
    ∧ runScanLoop 10 "x" [{ statErr := true }, { nowMs := 100 }] = [] :=
  ⟨Or.inl rfl,
   scan_error_aborts_loop_permanently 10 "x" { statErr := true }
     [{ nowMs := 100 }] (Or.inl rfl)⟩

end TextfileExporter
